import Mathlib

/-!
Verification of `magic_words/forward_reach.py`: a brute-force reachability
search over single-token prompts for a causal language model.

The Python code is shallowly embedded as follows.

* A tensor of token ids of shape `[batch, len]` is a `List (List Nat)`.
* A causal language model is a `Model`: a function `logits` sending a token
  sequence to the vocabulary-sized score vector at the *final* sequence
  position (the only position the code ever reads), with scores as rationals.
  A batched forward pass of a causal model is the row-wise application of
  this function.  The floating-point `torch.nn.functional.cross_entropy`
  applied to a final-position logits row and a target id is abstracted as an
  uninterpreted field `xent` of the model (no claim depends on its values;
  only on which rows carry it).
* A tokenizer is a `Tokenizer`: a `vocab_size` and a `decode` function from
  token-id sequences to strings (`tokenizer.decode` on a single id `i` is
  `decode [i]`, and `batch_decode` on a `[1, n]` tensor `[xs]` is `decode xs`).
* `torch.argmax` over a score vector is `argmax`, the index of the first
  occurrence of the maximal entry.
* Python `assert` failures and unsupported-configuration failures are
  `Except.error` values carrying a `PyError` that records which kind of
  condition fired and the message of the corresponding Python assertion.
* A pandas cell that may hold either a Python list of ints or some other
  value (e.g. a serialized string) is a `PyObj`.
-/

namespace ForwardReach

/-- Error conditions raised by the Python code (`assert` failures and the
explicit not-implemented refusal). -/
inductive PyError where
  | notImplemented (msg : String)
  | invalidInput (msg : String)
  | typeAssertion (msg : String)
  | shapeAssertion (msg : String)
  | zeroDivision (msg : String)
deriving DecidableEq

/-- Index of the first occurrence of the running maximum, scanning left to
right; `i` is the index of the head of the remaining list, `bi`/`bv` the best
index and value so far. -/
def argmaxFrom : Nat → Nat → ℚ → List ℚ → Nat
  | _, bi, _, [] => bi
  | i, bi, bv, v :: vs =>
      if bv < v then argmaxFrom (i + 1) i v vs else argmaxFrom (i + 1) bi bv vs

/-- `torch.argmax` over a score vector: index of the first maximal entry. -/
def argmax : List ℚ → Nat
  | [] => 0
  | v :: vs => argmaxFrom 1 0 v vs

/-- A causal language model, reduced to what the code observes: the
final-position logits of a token sequence, plus the (abstracted)
cross-entropy of a final-position logits row against a target id. -/
structure Model where
  logits : List Nat → List ℚ
  xent : List ℚ → Nat → ℚ

/-- A tokenizer: vocabulary size and decoding of token-id sequences. -/
structure Tokenizer where
  vocab_size : Nat
  decode : List Nat → String

/-- One row of the reachable-set table (`new_row` in `get_reachable_set`). -/
structure ReachRow where
  question : String
  question_ids : List Nat
  answer : String
  answer_ids : Nat
  base_loss : ℚ
  search_method : String
  prompt_length : Nat
  prompted_loss : ℚ
  base_correct : Bool
  prompt_correct : Bool
  question_length : Nat
deriving DecidableEq

/-- A dynamically-typed pandas cell: either a genuine Python list of token
ids or a non-list value (such as a serialized string). -/
inductive PyObj where
  | list (xs : List Nat)
  | str (s : String)
deriving DecidableEq

/-- One row of the `unique_states` dataframe passed to `forward_generate`. -/
structure StateRow where
  question : String
  question_ids : PyObj
deriving DecidableEq

/-- `_get_prompt_ids_brute_force(tokenizer)`: the `[vocab_size, 1]` tensor of
all token ids. -/
def _get_prompt_ids_brute_force (tokenizer : Tokenizer) : List (List Nat) :=
  (List.range tokenizer.vocab_size).map (fun i => [i])

/-- `_get_answer_ids(prompt_ids, question_ids, model, tokenizer)`: per-row
concatenate prompt and question, one forward pass, argmax at the final
position.  The question batch is replicated when it is 1 and the prompt
batch exceeds 1; afterwards the batch dimensions must match.  The trailing
shape assertion of the Python code is kept verbatim. -/
def _get_answer_ids (prompt_ids question_ids : List (List Nat))
    (model : Model) (tokenizer : Tokenizer) : Except PyError (List (List Nat)) :=
  let question_ids :=
    if question_ids.length = 1 ∧ 1 < prompt_ids.length then
      List.replicate prompt_ids.length (question_ids.headD [])
    else question_ids
  if prompt_ids.length = question_ids.length then
    let input_ids := List.zipWith (fun p q => p ++ q) prompt_ids question_ids
    let answer_ids := input_ids.map (fun row => [argmax (model.logits row)])
    if answer_ids.length = prompt_ids.length ∧ ∀ r ∈ answer_ids, r.length = 1 then
      .ok answer_ids
    else
      .error (.shapeAssertion "answer_ids has the wrong shape")
  else
    .error (.invalidInput
      "Batch dimension of prompt_ids and question_ids must match in _get_answer_ids()")

/-- Slice assignment `buf[s : s + vals.length] = vals` on a list. -/
def setSlice {α : Type} (buf : List α) (s : Nat) (vals : List α) : List α :=
  buf.take s ++ vals ++ buf.drop (s + vals.length)

/-- The body of the chunk loop of `_batch_get_answer_ids` for chunk index
`i`: slice the prompts (the question tensor is passed whole, unsliced),
score the chunk, and write the result into the position-aligned slots of
the accumulator. -/
def batchStep (prompt_ids question_ids : List (List Nat)) (model : Model)
    (tokenizer : Tokenizer) (max_parallel : Nat)
    (answer_ids : List (List Nat)) (i : Nat) : Except PyError (List (List Nat)) :=
  let batch_start := i * max_parallel
  let batch_end := min ((i + 1) * max_parallel) prompt_ids.length
  let prompt_ids_batch := (prompt_ids.drop batch_start).take (batch_end - batch_start)
  do
    let answer_ids_batch ← _get_answer_ids prompt_ids_batch question_ids model tokenizer
    pure (setSlice answer_ids batch_start answer_ids_batch)

/-- `_batch_get_answer_ids(prompt_ids, question_ids, model, tokenizer,
max_parallel)`: call `_get_answer_ids` on contiguous chunks of at most
`max_parallel` prompts (the full, unsliced `question_ids` is passed to every
chunk), writing each chunk's result into the position-aligned slots of a
zero-initialized output buffer. -/
def _batch_get_answer_ids (prompt_ids question_ids : List (List Nat))
    (model : Model) (tokenizer : Tokenizer) (max_parallel : Nat := 300) :
    Except PyError (List (List Nat)) :=
  let batch := prompt_ids.length
  if max_parallel = 0 then .error (.zeroDivision "division by zero") else
  let num_batches := (batch + max_parallel - 1) / max_parallel
  (List.range num_batches).foldlM
    (batchStep prompt_ids question_ids model tokenizer max_parallel)
    (List.replicate batch ([0] : List Nat))

/-- The body of the candidate loop of `get_reachable_set` for candidate
prompt id `i`: run the model on `[i] + x_0`, take the argmax; if the
predicted id is already recorded, leave the table unchanged, otherwise
compute the metrics and append the new row. -/
def reachStep (x_0 : List Nat) (model : Model) (tokenizer : Tokenizer)
    (base_logits : List ℚ) (base_answer_ids : Nat) (question : String)
    (rows : List ReachRow) (i : Nat) : List ReachRow :=
  let input_ids := i :: x_0
  let logits := model.logits input_ids
  let answer_ids := argmax logits
  if answer_ids ∈ rows.map (fun r => r.answer_ids) then rows
  else
    let answer := tokenizer.decode [answer_ids]
    let base_loss := model.xent base_logits answer_ids
    let prompted_loss := model.xent logits answer_ids
    let base_correct := base_answer_ids == answer_ids
    let prompt_correct := true
    let question_length := x_0.length
    rows ++ [{ question := question
               question_ids := x_0
               answer := answer
               answer_ids := answer_ids
               base_loss := base_loss
               search_method := "forward"
               prompt_length := 1
               prompted_loss := prompted_loss
               base_correct := base_correct
               prompt_correct := prompt_correct
               question_length := question_length }]

/-- The reachable-set table of `get_reachable_set` once the
`max_prompt_tokens == 1` assertion has passed: base logits, base answer and
question text are computed once, then every candidate id in
`[0, vocab_size)` is processed in ascending order. -/
def reachTable (x_0 : List Nat) (model : Model) (tokenizer : Tokenizer) :
    List ReachRow :=
  (List.range tokenizer.vocab_size).foldl
    (reachStep x_0 model tokenizer (model.logits x_0) (argmax (model.logits x_0))
      (tokenizer.decode x_0))
    []

/-- `get_reachable_set(x_0, model, tokenizer, max_prompt_tokens=10)`:
asserts `max_prompt_tokens == 1`, then enumerates the reachable set. -/
def get_reachable_set (x_0 : List Nat) (model : Model) (tokenizer : Tokenizer)
    (max_prompt_tokens : Nat := 10) : Except PyError (List ReachRow) :=
  if max_prompt_tokens = 1 then .ok (reachTable x_0 model tokenizer)
  else .error (.notImplemented
    "`get_reachable_set()` Not implemented with max_prompt_tokens != 1")

/-- The body of the state loop of `forward_generate` for one dataframe row:
assert the `question_ids` cell is a literal list, run `get_reachable_set` on
it and concatenate the resulting table onto the accumulated result. -/
def generateStep (model : Model) (tokenizer : Tokenizer) (max_prompt_tokens : Nat)
    (reachable_df : List ReachRow) (row : StateRow) : Except PyError (List ReachRow) :=
  match row.question_ids with
  | .list x_0 => do
      let new_reachable_set ← get_reachable_set x_0 model tokenizer max_prompt_tokens
      pure (reachable_df ++ new_reachable_set)
  | .str _ => .error (.typeAssertion
      "question_ids must be a list of token ids -- not a string.")

/-- `forward_generate(unique_states, model, tokenizer, max_prompt_tokens=10)`:
run the state loop over all rows, starting from an empty result table. -/
def forward_generate (unique_states : List StateRow) (model : Model)
    (tokenizer : Tokenizer) (max_prompt_tokens : Nat := 10) :
    Except PyError (List ReachRow) :=
  unique_states.foldlM (generateStep model tokenizer max_prompt_tokens)
    ([] : List ReachRow)

/-! ### Derived observables of the search -/

/-- The model's argmax prediction for the prompted input `[i] + x_0`. -/
def predId (model : Model) (x_0 : List Nat) (i : Nat) : Nat :=
  argmax (model.logits (i :: x_0))

/-- The model's unprompted argmax prediction for the question alone. -/
def baseId (model : Model) (x_0 : List Nat) : Nat :=
  argmax (model.logits x_0)

/-- Candidate id `i` is the first candidate to achieve its own prediction:
no smaller candidate predicts the same token. -/
def isFirstAt (model : Model) (x_0 : List Nat) (i : Nat) : Bool :=
  (List.range i).all (fun j => predId model x_0 j != predId model x_0 i)

/-- The smallest candidate prompt id in `[0, V)` whose prediction is `a`
(`V` if none). -/
def firstHit (model : Model) (x_0 : List Nat) (V a : Nat) : Nat :=
  (List.range V).findIdx (fun i => predId model x_0 i == a)

/-- The fully evaluated reachable-set row discovered by candidate id `i`. -/
def rowOf (model : Model) (tokenizer : Tokenizer) (x_0 : List Nat) (i : Nat) :
    ReachRow :=
  { question := tokenizer.decode x_0
    question_ids := x_0
    answer := tokenizer.decode [predId model x_0 i]
    answer_ids := predId model x_0 i
    base_loss := model.xent (model.logits x_0) (predId model x_0 i)
    search_method := "forward"
    prompt_length := 1
    prompted_loss := model.xent (model.logits (i :: x_0)) (predId model x_0 i)
    base_correct := baseId model x_0 == predId model x_0 i
    prompt_correct := true
    question_length := x_0.length }

/-- The reachable-set table contributed by one state row (taken to be empty
for a non-list cell; in the code such a row instead fails the type
assertion before any model call). -/
def tableOf (model : Model) (tokenizer : Tokenizer) (row : StateRow) :
    List ReachRow :=
  match row.question_ids with
  | .list x_0 => reachTable x_0 model tokenizer
  | .str _ => []

/-! ### A small concrete model for witnesses -/

/-- A three-token demo model: on question `[2]`, prompts `0` and `2` both
flip the prediction to token `0`, prompt `1` agrees with the unprompted
prediction `1`. -/
def demoModel : Model where
  logits := fun xs =>
    match xs with
    | [2] => [0, 1, 0]
    | [0, 2] => [1, 0, 0]
    | [1, 2] => [0, 1, 0]
    | [2, 2] => [1, 0, 0]
    | _ => [0, 0, 0]
  xent := fun _ _ => 0

/-- A three-token demo tokenizer decoding everything to the empty string. -/
def demoTok : Tokenizer where
  vocab_size := 3
  decode := fun _ => ""

/-! ### The candidate loop: characterization by first-discovery indices -/

@[simp] lemma rowOf_answer_ids (model : Model) (tokenizer : Tokenizer)
    (x_0 : List Nat) (i : Nat) :
    (rowOf model tokenizer x_0 i).answer_ids = predId model x_0 i := rfl

lemma isFirstAt_iff (model : Model) (x_0 : List Nat) (i : Nat) :
    isFirstAt model x_0 i = true ↔
      ∀ j < i, predId model x_0 j ≠ predId model x_0 i := by
  simp [isFirstAt, List.all_eq_true, List.mem_range]

lemma mem_firstIdxs_iff (model : Model) (x_0 : List Nat) (n a : Nat) :
    a ∈ ((List.range n).filter (isFirstAt model x_0)).map (predId model x_0) ↔
      ∃ i, i < n ∧ predId model x_0 i = a := by
  constructor
  · intro h
    rcases List.mem_map.1 h with ⟨i, hi, rfl⟩
    rcases List.mem_filter.1 hi with ⟨hir, _⟩
    exact ⟨i, List.mem_range.1 hir, rfl⟩
  · rintro ⟨i, hin, hpi⟩
    have hex : ∃ j, predId model x_0 j = a := ⟨i, hpi⟩
    have hj0i : Nat.find hex ≤ i := Nat.find_le hpi
    have hj0a : predId model x_0 (Nat.find hex) = a := Nat.find_spec hex
    have hfirst : isFirstAt model x_0 (Nat.find hex) = true := by
      rw [isFirstAt_iff]
      intro j hj hcontra
      exact Nat.find_min hex hj (hcontra.trans hj0a)
    exact List.mem_map.2 ⟨Nat.find hex,
      List.mem_filter.2 ⟨List.mem_range.2 (lt_of_le_of_lt hj0i hin), hfirst⟩, hj0a⟩

lemma reach_fold_eq (model : Model) (tokenizer : Tokenizer) (x_0 : List Nat)
    (n : Nat) :
    (List.range n).foldl
      (reachStep x_0 model tokenizer (model.logits x_0)
        (argmax (model.logits x_0)) (tokenizer.decode x_0)) [] =
    ((List.range n).filter (isFirstAt model x_0)).map (rowOf model tokenizer x_0) := by
  induction n with
  | zero => rfl
  | succ n ih =>
    rw [List.range_succ, List.foldl_append, ih, List.filter_append, List.map_append]
    simp only [List.foldl_cons, List.foldl_nil]
    have hco : ((fun r => r.answer_ids) ∘ rowOf model tokenizer x_0) = predId model x_0 := rfl
    have hmem : argmax (model.logits (n :: x_0)) ∈
        (((List.range n).filter (isFirstAt model x_0)).map
          (rowOf model tokenizer x_0)).map (fun r => r.answer_ids) ↔
        ∃ i, i < n ∧ predId model x_0 i = predId model x_0 n := by
      rw [List.map_map, hco]
      exact mem_firstIdxs_iff model x_0 n (predId model x_0 n)
    by_cases hf : isFirstAt model x_0 n = true
    · have hnotmem : ¬ argmax (model.logits (n :: x_0)) ∈
          (((List.range n).filter (isFirstAt model x_0)).map
            (rowOf model tokenizer x_0)).map (fun r => r.answer_ids) := by
        rw [hmem]
        rintro ⟨i, hin, hpi⟩
        exact (isFirstAt_iff model x_0 n).1 hf i hin hpi
      simp only [reachStep]
      rw [if_neg hnotmem]
      simp only [List.filter_cons, List.filter_nil, hf, if_true]
      rfl
    · have hex : ∃ i, i < n ∧ predId model x_0 i = predId model x_0 n := by
        by_contra hcon
        push_neg at hcon
        exact hf ((isFirstAt_iff model x_0 n).2 hcon)
      simp only [reachStep]
      rw [if_pos (hmem.2 hex)]
      rw [List.filter_cons, if_neg hf, List.filter_nil, List.map_nil, List.append_nil]

lemma reachTable_eq (x_0 : List Nat) (model : Model) (tokenizer : Tokenizer) :
    reachTable x_0 model tokenizer =
      ((List.range tokenizer.vocab_size).filter (isFirstAt model x_0)).map
        (rowOf model tokenizer x_0) :=
  reach_fold_eq model tokenizer x_0 tokenizer.vocab_size

lemma get_reachable_set_one (x_0 : List Nat) (model : Model) (tokenizer : Tokenizer) :
    get_reachable_set x_0 model tokenizer 1 = .ok (reachTable x_0 model tokenizer) := rfl

lemma reachTable_map_answer (x_0 : List Nat) (model : Model) (tokenizer : Tokenizer) :
    (reachTable x_0 model tokenizer).map (fun r => r.answer_ids) =
      ((List.range tokenizer.vocab_size).filter (isFirstAt model x_0)).map
        (predId model x_0) := by
  rw [reachTable_eq, List.map_map]
  rfl

lemma firstIdxs_nodup (model : Model) (x_0 : List Nat) (n : Nat) :
    (((List.range n).filter (isFirstAt model x_0)).map (predId model x_0)).Nodup := by
  apply List.Nodup.map_on
  · intro x hx y hy hxy
    rcases List.mem_filter.1 hx with ⟨_, hfx⟩
    rcases List.mem_filter.1 hy with ⟨_, hfy⟩
    rcases Nat.lt_trichotomy x y with h | h | h
    · exact absurd hxy ((isFirstAt_iff model x_0 y).1 hfy x h)
    · exact h
    · exact absurd hxy.symm ((isFirstAt_iff model x_0 x).1 hfx y h)
  · exact List.Nodup.filter _ (List.nodup_range n)

lemma findIdx_map_comp {α β : Type} (f : α → β) (p : β → Bool) :
    ∀ l : List α, (l.map f).findIdx p = l.findIdx (fun a => p (f a))
  | [] => rfl
  | a :: l => by
    rw [List.map_cons, List.findIdx_cons, List.findIdx_cons]
    cases hpa : p (f a) <;> simp [hpa, findIdx_map_comp f p l]

lemma findIdx_range_eq (p : Nat → Bool) :
    ∀ i V : Nat, i < V → p i = true → (∀ j, j < i → p j = false) →
      (List.range V).findIdx p = i
  | 0, V, hiV, hpi, _ => by
    obtain ⟨V', rfl⟩ := Nat.exists_eq_succ_of_ne_zero (by omega : V ≠ 0)
    simp only [Nat.succ_eq_add_one, List.range_succ_eq_map, List.findIdx_cons, hpi]
    rfl
  | i + 1, V, hiV, hpi, hmin => by
    obtain ⟨V', rfl⟩ := Nat.exists_eq_succ_of_ne_zero (by omega : V ≠ 0)
    simp only [Nat.succ_eq_add_one, List.range_succ_eq_map, List.findIdx_cons,
      hmin 0 (by omega)]
    rw [show (cond false 0 ((List.map Nat.succ (List.range V')).findIdx p + 1)) =
        (List.map Nat.succ (List.range V')).findIdx p + 1 from rfl]
    rw [findIdx_map_comp]
    rw [findIdx_range_eq (fun a => p (Nat.succ a)) i V' (by omega) hpi
      (fun j hj => hmin (j + 1) (by omega))]

lemma firstHit_eq (model : Model) (x_0 : List Nat) {V i : Nat} (hiV : i < V)
    (hfirst : isFirstAt model x_0 i = true) :
    firstHit model x_0 V (predId model x_0 i) = i := by
  show (List.range V).findIdx
    (fun j => predId model x_0 j == predId model x_0 i) = i
  apply findIdx_range_eq (fun j => predId model x_0 j == predId model x_0 i) i V
    hiV (beq_self_eq_true _)
  intro j hj
  have hne := (isFirstAt_iff model x_0 i).1 hfirst j hj
  simpa using hne

lemma filter_length_le_one {α β : Type} [DecidableEq β] (f : α → β) (p : α → Bool)
    (c : β) : ∀ l : List α, (l.map f).Nodup → (∀ x ∈ l, p x = true → f x = c) →
      (l.filter p).length ≤ 1
  | [], _, _ => by simp
  | a :: l, hnd, hall => by
    rw [List.map_cons] at hnd
    have hnotin : f a ∉ l.map f := (List.nodup_cons.1 hnd).1
    have hndl := (List.nodup_cons.1 hnd).2
    rw [List.filter_cons]
    by_cases hpa : p a = true
    · rw [if_pos hpa]
      have hfl : l.filter p = [] := by
        rw [List.eq_nil_iff_forall_not_mem]
        intro x hx
        rcases List.mem_filter.1 hx with ⟨hxl, hpx⟩
        have h1 : f x = c := hall x (List.mem_cons_of_mem a hxl) hpx
        have h2 : f a = c := hall a (List.mem_cons_self a l) hpa
        exact hnotin (List.mem_map.2 ⟨x, hxl, h1.trans h2.symm⟩)
      simp [hfl]
    · rw [if_neg hpa]
      exact filter_length_le_one f p c l hndl
        (fun x hx hpx => hall x (List.mem_cons_of_mem a hx) hpx)

/-! ### Claims about `get_reachable_set` -/

/-- C1: with `max_prompt_tokens = 1`, the table returned by
`get_reachable_set` contains exactly one row per distinct token id that
occurs as the model's argmax next-token prediction for some input
`[i] + x_0` with `i` ranging over `[0, vocab_size)`: the recorded
`answer_ids` are pairwise distinct, no achievable predicted id is missing,
and no recorded id is unachievable. -/
theorem get_reachable_set_complete (x_0 : List Nat) (model : Model)
    (tokenizer : Tokenizer) (rows : List ReachRow)
    (h : get_reachable_set x_0 model tokenizer 1 = .ok rows) :
    (rows.map (fun r => r.answer_ids)).Nodup ∧
    ∀ a : Nat, a ∈ rows.map (fun r => r.answer_ids) ↔
      ∃ i, i < tokenizer.vocab_size ∧ predId model x_0 i = a := by
  rw [get_reachable_set_one] at h
  injection h with h
  subst h
  rw [reachTable_map_answer]
  exact ⟨firstIdxs_nodup model x_0 _, fun a => mem_firstIdxs_iff model x_0 _ a⟩

theorem get_reachable_set_complete_witness :
    ((reachTable [2] demoModel demoTok).map (fun r => r.answer_ids)).Nodup :=
  (get_reachable_set_complete [2] demoModel demoTok _ rfl).1

/-- C2: within one reachable-set table the `answer_ids` of the rows are
pairwise distinct, and a candidate whose predicted token id is already
recorded leaves the table unchanged (no new row, no recomputed metrics). -/
theorem reachable_set_answer_ids_distinct (x_0 : List Nat) (model : Model)
    (tokenizer : Tokenizer) (rows : List ReachRow)
    (h : get_reachable_set x_0 model tokenizer 1 = .ok rows) :
    (rows.map (fun r => r.answer_ids)).Nodup ∧
    ∀ (rs : List ReachRow) (bl : List ℚ) (b : Nat) (s : String) (i : Nat),
      argmax (model.logits (i :: x_0)) ∈ rs.map (fun r => r.answer_ids) →
      reachStep x_0 model tokenizer bl b s rs i = rs := by
  rw [get_reachable_set_one] at h
  injection h with h
  subst h
  constructor
  · rw [reachTable_map_answer]
    exact firstIdxs_nodup model x_0 _
  · intro rs bl b s i hmem
    simp only [reachStep]
    rw [if_pos hmem]

theorem reachable_set_answer_ids_distinct_witness :
    ((reachTable [2] demoModel demoTok).map (fun r => r.answer_ids)).Nodup :=
  (reachable_set_answer_ids_distinct [2] demoModel demoTok _ rfl).1

/-- C3: the rows of the reachable-set table appear in ascending order of the
smallest candidate prompt id in `[0, vocab_size)` whose prediction equals the
row's `answer_ids` (`firstHit`): row order is first-discovery order while
scanning candidate ids ascending. -/
theorem reachable_set_rows_discovery_ordered (x_0 : List Nat) (model : Model)
    (tokenizer : Tokenizer) (rows : List ReachRow)
    (h : get_reachable_set x_0 model tokenizer 1 = .ok rows) :
    rows.Pairwise (fun r s =>
      firstHit model x_0 tokenizer.vocab_size r.answer_ids <
      firstHit model x_0 tokenizer.vocab_size s.answer_ids) := by
  rw [get_reachable_set_one] at h
  injection h with h
  subst h
  rw [reachTable_eq, List.pairwise_map]
  have hpw : ((List.range tokenizer.vocab_size).filter
      (isFirstAt model x_0)).Pairwise (· < ·) :=
    (List.pairwise_lt_range _).filter _
  refine List.Pairwise.imp_of_mem ?_ hpw
  intro a b ha hb hab
  rcases List.mem_filter.1 ha with ⟨har, hfa⟩
  rcases List.mem_filter.1 hb with ⟨hbr, hfb⟩
  simp only [rowOf_answer_ids]
  rw [firstHit_eq model x_0 (List.mem_range.1 har) hfa,
    firstHit_eq model x_0 (List.mem_range.1 hbr) hfb]
  exact hab

theorem reachable_set_rows_discovery_ordered_witness :
    (reachTable [2] demoModel demoTok).Pairwise (fun r s =>
      firstHit demoModel [2] demoTok.vocab_size r.answer_ids <
      firstHit demoModel [2] demoTok.vocab_size s.answer_ids) :=
  reachable_set_rows_discovery_ordered [2] demoModel demoTok _ rfl

/-- C4: calling `get_reachable_set` with any `max_prompt_tokens` other than
1 fails with the NotImplemented condition (uniformly in the model, so before
any forward pass can depend on it), while `max_prompt_tokens = 1` succeeds
and returns the reachable-set table. -/
theorem get_reachable_set_requires_one (x_0 : List Nat) (model : Model)
    (tokenizer : Tokenizer) (mpt : Nat) (h : mpt ≠ 1) :
    get_reachable_set x_0 model tokenizer mpt =
      .error (.notImplemented
        "`get_reachable_set()` Not implemented with max_prompt_tokens != 1") ∧
    get_reachable_set x_0 model tokenizer 1 = .ok (reachTable x_0 model tokenizer) := by
  constructor
  · simp only [get_reachable_set]
    rw [if_neg h]
  · rfl

theorem get_reachable_set_requires_one_witness :
    get_reachable_set [2] demoModel demoTok 2 =
      .error (.notImplemented
        "`get_reachable_set()` Not implemented with max_prompt_tokens != 1") ∧
    get_reachable_set [2] demoModel demoTok 1 =
      .ok (reachTable [2] demoModel demoTok) :=
  get_reachable_set_requires_one [2] demoModel demoTok 2 (by decide)

/-- C5: `base_correct` holds on a row exactly when that row's `answer_ids`
equals the model's unprompted argmax prediction for the question alone, and
at most one row of the table satisfies it. -/
theorem reachable_set_base_correct_iff (x_0 : List Nat) (model : Model)
    (tokenizer : Tokenizer) (rows : List ReachRow)
    (h : get_reachable_set x_0 model tokenizer 1 = .ok rows) :
    (∀ r ∈ rows, (r.base_correct = true ↔ r.answer_ids = baseId model x_0)) ∧
    (rows.filter (fun r => r.base_correct)).length ≤ 1 ∧
    (∀ r ∈ rows, r.answer_ids = baseId model x_0 →
      (rows.filter (fun s => s.base_correct)).length = 1) := by
  rw [get_reachable_set_one] at h
  injection h with h
  subst h
  have hchar : ∀ r ∈ reachTable x_0 model tokenizer,
      (r.base_correct = true ↔ r.answer_ids = baseId model x_0) := by
    intro r hr
    rw [reachTable_eq] at hr
    rcases List.mem_map.1 hr with ⟨i, _, rfl⟩
    simp only [rowOf, rowOf_answer_ids, beq_iff_eq]
    exact eq_comm
  have hle : ((reachTable x_0 model tokenizer).filter
      (fun r => r.base_correct)).length ≤ 1 :=
    filter_length_le_one (fun r => r.answer_ids) (fun r => r.base_correct)
      (baseId model x_0) (reachTable x_0 model tokenizer)
      (by rw [reachTable_map_answer]; exact firstIdxs_nodup model x_0 _)
      (fun r hr hp => (hchar r hr).1 hp)
  refine ⟨hchar, hle, ?_⟩
  intro r hr hbase
  have hrmem : r ∈ (reachTable x_0 model tokenizer).filter
      (fun s => s.base_correct) :=
    List.mem_filter.2 ⟨hr, (hchar r hr).2 hbase⟩
  have hpos : 0 < ((reachTable x_0 model tokenizer).filter
      (fun s => s.base_correct)).length :=
    List.length_pos.2 (List.ne_nil_of_mem hrmem)
  omega

theorem reachable_set_base_correct_iff_witness :
    ((reachTable [2] demoModel demoTok).filter (fun r => r.base_correct)).length ≤ 1 :=
  (reachable_set_base_correct_iff [2] demoModel demoTok _ rfl).2.1

/-! ### The answer-computation primitive -/

lemma zipWith_replicate_right {α β γ : Type} (f : α → β → γ) (b : β) :
    ∀ (l : List α) (n : Nat), l.length = n →
      List.zipWith f l (List.replicate n b) = l.map (fun a => f a b)
  | [], _, h => by subst h; rfl
  | a :: l, n, h => by
    subst h
    rw [List.length_cons, List.replicate_succ, List.zipWith_cons_cons, List.map_cons,
      zipWith_replicate_right f b l l.length rfl]

lemma get_answer_ids_matched (P Q : List (List Nat)) (model : Model)
    (tokenizer : Tokenizer) (hQP : Q.length = P.length) :
    _get_answer_ids P Q model tokenizer =
      .ok (List.zipWith (fun p q => [argmax (model.logits (p ++ q))]) P Q) := by
  have hcond : ¬ (Q.length = 1 ∧ 1 < P.length) := by
    rintro ⟨h1, h2⟩
    omega
  simp only [_get_answer_ids]
  rw [if_neg hcond, if_pos hQP.symm, List.map_zipWith]
  have hlen : (List.zipWith (fun p q => [argmax (model.logits (p ++ q))]) P Q).length
      = P.length := by
    rw [List.length_zipWith, hQP, min_self]
  have hall : ∀ r ∈ List.zipWith (fun p q => [argmax (model.logits (p ++ q))]) P Q,
      r.length = 1 := by
    intro r hr
    rcases List.mem_iff_getElem.1 hr with ⟨i, hi, rfl⟩
    rw [List.getElem_zipWith]
    rfl
  rw [if_pos (And.intro hlen hall)]

lemma get_answer_ids_broadcast (P : List (List Nat)) (q : List Nat)
    (model : Model) (tokenizer : Tokenizer) (hP : P ≠ []) :
    _get_answer_ids P [q] model tokenizer =
      .ok (P.map (fun p => [argmax (model.logits (p ++ q))])) := by
  rcases P with _ | ⟨p, P'⟩
  · exact absurd rfl hP
  rcases P' with _ | ⟨p', P''⟩
  · exact get_answer_ids_matched [p] [q] model tokenizer rfl
  have hlen : 1 < (p :: p' :: P'').length := by
    simp only [List.length_cons]
    omega
  have hcond : (([q] : List (List Nat)).length = 1 ∧ 1 < (p :: p' :: P'').length) :=
    ⟨rfl, hlen⟩
  simp only [_get_answer_ids]
  rw [if_pos hcond]
  have hrep : List.zipWith (fun p q => p ++ q) (p :: p' :: P'')
      (List.replicate (p :: p' :: P'').length (([q] : List (List Nat)).headD [])) =
      (p :: p' :: P'').map (fun a => a ++ q) :=
    zipWith_replicate_right _ _ _ _ rfl
  rw [hrep, List.map_map]
  have hlen2 : (((p :: p' :: P'').map
      ((fun row => [argmax (model.logits row)]) ∘ fun a => a ++ q))).length
      = (p :: p' :: P'').length := by
    rw [List.length_map]
  have hall2 : ∀ r ∈ (p :: p' :: P'').map
      ((fun row => [argmax (model.logits row)]) ∘ fun a => a ++ q), r.length = 1 := by
    intro r hr
    rcases List.mem_map.1 hr with ⟨a, _, rfl⟩
    rfl
  rw [if_pos (And.intro hlen2 hall2)]
  rw [if_pos (show (p :: p' :: P'').length =
    (List.replicate (p :: p' :: P'').length
      (([q] : List (List Nat)).headD [])).length from
    (List.length_replicate _ _).symm)]
  rfl

lemma get_answer_ids_mismatch (P Q : List (List Nat)) (model : Model)
    (tokenizer : Tokenizer) (h : P.length ≠ Q.length)
    (h2 : ¬ (Q.length = 1 ∧ 1 < P.length)) :
    _get_answer_ids P Q model tokenizer = .error (.invalidInput
      "Batch dimension of prompt_ids and question_ids must match in _get_answer_ids()") := by
  simp only [_get_answer_ids]
  rw [if_neg h2, if_neg h]

/-- C6: contract of `_get_answer_ids` for prompt batch `P` and question
batch `Q`: when `Q = 1 < P` the single question is broadcast and the call
returns `P` predictions of shape `(P, 1)`, each against the same question;
when the batch sizes differ otherwise it fails with the InvalidInput
condition; when they match it returns `P` row-wise independently computed
predictions of shape `(P, 1)`. -/
theorem get_answer_ids_contract (P Q : List (List Nat)) (model : Model)
    (tokenizer : Tokenizer) :
    (Q.length = 1 → 1 < P.length →
      _get_answer_ids P Q model tokenizer =
        .ok (P.map (fun p => [argmax (model.logits (p ++ Q.headD []))])) ∧
      (P.map (fun p => [argmax (model.logits (p ++ Q.headD []))])).length = P.length ∧
      ∀ r ∈ P.map (fun p => [argmax (model.logits (p ++ Q.headD []))]), r.length = 1) ∧
    (Q.length ≠ P.length → ¬ (Q.length = 1 ∧ 1 < P.length) →
      _get_answer_ids P Q model tokenizer = .error (.invalidInput
        "Batch dimension of prompt_ids and question_ids must match in _get_answer_ids()")) ∧
    (Q.length = P.length →
      _get_answer_ids P Q model tokenizer =
        .ok (List.zipWith (fun p q => [argmax (model.logits (p ++ q))]) P Q) ∧
      (List.zipWith (fun p q => [argmax (model.logits (p ++ q))]) P Q).length = P.length ∧
      ∀ r ∈ List.zipWith (fun p q => [argmax (model.logits (p ++ q))]) P Q,
        r.length = 1) := by
  refine ⟨?_, ?_, ?_⟩
  · intro hQ hP1
    rcases Q with _ | ⟨q, Q'⟩
    · simp at hQ
    rcases Q' with _ | ⟨q2, Q''⟩
    · have hP : P ≠ [] := by
        intro hnil
        rw [hnil] at hP1
        simp at hP1
      refine ⟨get_answer_ids_broadcast P q model tokenizer hP, by rw [List.length_map], ?_⟩
      intro r hr
      rcases List.mem_map.1 hr with ⟨a, _, rfl⟩
      rfl
    · simp [List.length_cons] at hQ
  · intro h1 h2
    exact get_answer_ids_mismatch P Q model tokenizer (Ne.symm h1) h2
  · intro hQP
    refine ⟨get_answer_ids_matched P Q model tokenizer hQP, ?_, ?_⟩
    · rw [List.length_zipWith, hQP, min_self]
    · intro r hr
      rcases List.mem_iff_getElem.1 hr with ⟨i, hi, rfl⟩
      rw [List.getElem_zipWith]
      rfl

theorem get_answer_ids_contract_witness :
    _get_answer_ids [[0], [1]] [[2]] demoModel demoTok = .ok [[0], [1]] := by
  have h := (get_answer_ids_contract [[0], [1]] [[2]] demoModel demoTok).1 rfl (by decide)
  rw [h.1]
  rfl

/-! ### The chunked scoring loop -/

lemma except_bind_ok {α β : Type} (a : α) (g : α → Except PyError β) :
    (Except.ok a >>= g) = g a := rfl

lemma except_bind_error {α β : Type} (e : PyError) (g : α → Except PyError β) :
    ((Except.error e : Except PyError α) >>= g) = Except.error e := rfl

lemma ceilDiv_mul_ge {b mp : Nat} (hmp : 0 < mp) :
    b ≤ ((b + mp - 1) / mp) * mp := by
  have hq := Nat.div_add_mod (b + mp - 1) mp
  have hr : (b + mp - 1) % mp < mp := Nat.mod_lt _ hmp
  rw [Nat.mul_comm mp ((b + mp - 1) / mp)] at hq
  omega

lemma lt_of_lt_ceilDiv {b mp n : Nat} (hmp : 0 < mp) (h : n < (b + mp - 1) / mp) :
    n * mp < b := by
  have hq := Nat.div_add_mod (b + mp - 1) mp
  have hr : (b + mp - 1) % mp < mp := Nat.mod_lt _ hmp
  rw [Nat.mul_comm mp ((b + mp - 1) / mp)] at hq
  have hmul : (n + 1) * mp ≤ ((b + mp - 1) / mp) * mp := Nat.mul_le_mul_right mp h
  rw [Nat.add_mul, Nat.one_mul] at hmul
  omega

lemma setSlice_step {α : Type} (tgt : List α) (z : α) (bs be : Nat)
    (hbsbe : bs ≤ be) (hbe : be ≤ tgt.length) :
    setSlice (tgt.take bs ++ List.replicate (tgt.length - bs) z) bs
      ((tgt.drop bs).take (be - bs)) =
    tgt.take be ++ List.replicate (tgt.length - be) z := by
  have hXlen : (tgt.take bs).length = bs := by
    rw [List.length_take]
    omega
  have hvlen : ((tgt.drop bs).take (be - bs)).length = be - bs := by
    rw [List.length_take, List.length_drop]
    omega
  simp only [setSlice, hvlen]
  rw [List.take_append_of_le_length (by omega), List.take_take,
    min_eq_left le_rfl]
  rw [show bs + (be - bs) = (tgt.take bs).length + (be - bs) by rw [hXlen]]
  rw [List.drop_append, List.drop_replicate]
  rw [show tgt.length - bs - (be - bs) = tgt.length - be by omega]
  rw [← List.take_add]
  rw [show bs + (be - bs) = be by omega]

lemma batch_fold_broadcast (P : List (List Nat)) (q : List Nat) (model : Model)
    (tokenizer : Tokenizer) (mp : Nat) (hmp : 0 < mp) (n : Nat)
    (hn : n ≤ (P.length + mp - 1) / mp) :
    (List.range n).foldlM (batchStep P [q] model tokenizer mp)
      (List.replicate P.length ([0] : List Nat)) =
    .ok ((P.map (fun p => [argmax (model.logits (p ++ q))])).take
        (min (n * mp) P.length)
      ++ List.replicate (P.length - min (n * mp) P.length) ([0] : List Nat)) := by
  induction n with
  | zero =>
    simp [List.range_zero, List.foldlM_nil]
    rfl
  | succ n ih =>
    have hnceil : n < (P.length + mp - 1) / mp := by omega
    have hbs : n * mp < P.length := lt_of_lt_ceilDiv hmp hnceil
    have hbe1 : n * mp < (n + 1) * mp := by
      rw [Nat.add_mul, Nat.one_mul]
      omega
    rw [List.range_succ, List.foldlM_append, ih (by omega), except_bind_ok,
      List.foldlM_cons]
    simp only [List.foldlM_nil, bind_pure]
    have hminn : min (n * mp) P.length = n * mp := min_eq_left (by omega)
    rw [hminn]
    simp only [batchStep]
    have hchunklen : ((P.drop (n * mp)).take
        (min ((n + 1) * mp) P.length - n * mp)).length
        = min ((n + 1) * mp) P.length - n * mp := by
      rw [List.length_take, List.length_drop]
      omega
    have hchunkpos : 0 < ((P.drop (n * mp)).take
        (min ((n + 1) * mp) P.length - n * mp)).length := by
      rw [hchunklen]
      omega
    have hchunkne : (P.drop (n * mp)).take
        (min ((n + 1) * mp) P.length - n * mp) ≠ [] :=
      List.ne_nil_of_length_pos hchunkpos
    rw [get_answer_ids_broadcast _ q model tokenizer hchunkne, except_bind_ok]
    have hmapsplit : ((P.drop (n * mp)).take
        (min ((n + 1) * mp) P.length - n * mp)).map
          (fun p => [argmax (model.logits (p ++ q))]) =
        ((P.map (fun p => [argmax (model.logits (p ++ q))])).drop (n * mp)).take
          (min ((n + 1) * mp) P.length - n * mp) := by
      rw [List.map_take, List.map_drop]
    rw [hmapsplit]
    have hlenmap : (P.map (fun p => [argmax (model.logits (p ++ q))])).length
        = P.length := List.length_map _ _
    have hstep := setSlice_step (P.map (fun p => [argmax (model.logits (p ++ q))]))
      ([0] : List Nat) (n * mp) (min ((n + 1) * mp) P.length)
      (by omega) (by omega)
    rw [hlenmap] at hstep
    rw [hstep]
    rfl

lemma batch_broadcast_ok (P : List (List Nat)) (q : List Nat) (model : Model)
    (tokenizer : Tokenizer) (mp : Nat) (hmp : 0 < mp) :
    _batch_get_answer_ids P [q] model tokenizer mp =
      .ok (P.map (fun p => [argmax (model.logits (p ++ q))])) := by
  simp only [_batch_get_answer_ids]
  rw [if_neg (by omega : ¬ mp = 0)]
  rw [batch_fold_broadcast P q model tokenizer mp hmp _ le_rfl]
  have hmin : min (((P.length + mp - 1) / mp) * mp) P.length = P.length :=
    min_eq_right (ceilDiv_mul_ge hmp)
  rw [hmin, Nat.sub_self, List.replicate_zero, List.append_nil]
  have hlenmap : (P.map (fun p => [argmax (model.logits (p ++ q))])).length
      = P.length := List.length_map _ _
  rw [← hlenmap, List.take_length]

/-- C7: for a batch of prompts scored against one question,
`_batch_get_answer_ids` (which covers the batch by contiguous chunks of at
most `max_parallel` prompts written into position-aligned output slots)
returns exactly the rows of a single `_get_answer_ids` call over the whole
batch, in input row order. -/
theorem batch_get_answer_ids_refines (P : List (List Nat)) (q : List Nat)
    (model : Model) (tokenizer : Tokenizer) (mp : Nat) (hmp : 0 < mp)
    (hP : P ≠ []) :
    _batch_get_answer_ids P [q] model tokenizer mp =
      _get_answer_ids P [q] model tokenizer ∧
    _batch_get_answer_ids P [q] model tokenizer mp =
      .ok (P.map (fun p => [argmax (model.logits (p ++ q))])) := by
  have h1 := batch_broadcast_ok P q model tokenizer mp hmp
  have h2 := get_answer_ids_broadcast P q model tokenizer hP
  exact ⟨h1.trans h2.symm, h1⟩

theorem batch_get_answer_ids_refines_witness :
    _batch_get_answer_ids [[0], [1], [2]] [[2]] demoModel demoTok 2 =
      _get_answer_ids [[0], [1], [2]] [[2]] demoModel demoTok ∧
    _batch_get_answer_ids [[0], [1], [2]] [[2]] demoModel demoTok 2 =
      .ok [[0], [1], [0]] := by
  have h := batch_get_answer_ids_refines [[0], [1], [2]] [2] demoModel demoTok 2
    (by decide) (by decide)
  refine ⟨h.1, h.2.trans ?_⟩
  rfl

/-- C10: `_batch_get_answer_ids` passes the full, unsliced question batch to
every chunked `_get_answer_ids` call.  Consequently, when the question batch
equals the prompt batch and both exceed `max_parallel`, the first chunked
call fails the batch-dimension assertion; the matched case succeeds when the
whole batch fits in one chunk, and the one-question broadcast case succeeds
for any batch size. -/
theorem batch_question_unsliced (P Q : List (List Nat)) (model : Model)
    (tokenizer : Tokenizer) (mp : Nat) (hmp : 0 < mp) :
    (Q.length = P.length → mp < P.length →
      _batch_get_answer_ids P Q model tokenizer mp = .error (.invalidInput
        "Batch dimension of prompt_ids and question_ids must match in _get_answer_ids()")) ∧
    (Q.length = P.length → P.length ≤ mp →
      ∃ v, _batch_get_answer_ids P Q model tokenizer mp = .ok v) ∧
    (Q.length = 1 →
      ∃ v, _batch_get_answer_ids P Q model tokenizer mp = .ok v) := by
  refine ⟨?_, ?_, ?_⟩
  · intro hQP hbig
    simp only [_batch_get_answer_ids]
    rw [if_neg (by omega : ¬ mp = 0)]
    have hnbpos : 1 ≤ (P.length + mp - 1) / mp :=
      (Nat.le_div_iff_mul_le hmp).2 (by omega : 1 * mp ≤ P.length + mp - 1)
    obtain ⟨k, hk⟩ := Nat.exists_eq_succ_of_ne_zero (by omega :
      (P.length + mp - 1) / mp ≠ 0)
    rw [hk, List.range_succ_eq_map, List.foldlM_cons]
    simp only [batchStep, Nat.zero_mul, Nat.zero_add, Nat.one_mul,
      List.drop_zero, Nat.sub_zero]
    rw [min_eq_left (Nat.le_of_lt hbig)]
    have hchunklen : (P.take mp).length = mp := by
      rw [List.length_take]
      omega
    rw [get_answer_ids_mismatch (P.take mp) Q model tokenizer
      (by rw [hchunklen, hQP]; omega)
      (by rintro ⟨h1, _⟩; omega)]
    rw [except_bind_error, except_bind_error]
  · intro hQP hfit
    rcases Nat.eq_zero_or_pos P.length with h0 | hpos
    · refine ⟨List.replicate P.length ([0] : List Nat), ?_⟩
      simp only [_batch_get_answer_ids]
      rw [if_neg (by omega : ¬ mp = 0)]
      rw [show (P.length + mp - 1) / mp = 0 from by
        rw [h0]
        exact Nat.div_eq_of_lt (by omega)]
      rw [List.range_zero, List.foldlM_nil]
      rfl
    · have hnb1 : (P.length + mp - 1) / mp = 1 :=
        Nat.div_eq_of_lt_le (by omega : 1 * mp ≤ P.length + mp - 1)
          (by omega : P.length + mp - 1 < (1 + 1) * mp)
      refine ⟨setSlice (List.replicate P.length ([0] : List Nat)) 0
        (List.zipWith (fun p q => [argmax (model.logits (p ++ q))]) P Q), ?_⟩
      simp only [_batch_get_answer_ids]
      rw [if_neg (by omega : ¬ mp = 0), hnb1]
      rw [show List.range 1 = [0] from by decide]
      rw [List.foldlM_cons]
      simp only [List.foldlM_nil, bind_pure]
      simp only [batchStep, Nat.zero_mul, Nat.zero_add, Nat.one_mul,
        List.drop_zero, Nat.sub_zero]
      rw [min_eq_right hfit, List.take_length]
      rw [get_answer_ids_matched P Q model tokenizer hQP, except_bind_ok]
      rfl
  · intro hQ1
    rcases Q with _ | ⟨q, Q'⟩
    · simp at hQ1
    rcases Q' with _ | ⟨q2, Q''⟩
    · exact ⟨_, batch_broadcast_ok P q model tokenizer mp hmp⟩
    · simp [List.length_cons] at hQ1

theorem batch_question_unsliced_witness :
    _batch_get_answer_ids [[0], [1]] [[0], [1]] demoModel demoTok 1 =
      .error (.invalidInput
        "Batch dimension of prompt_ids and question_ids must match in _get_answer_ids()") :=
  (batch_question_unsliced [[0], [1]] [[0], [1]] demoModel demoTok 1
    (by decide)).1 rfl (by decide)

/-! ### The batch driver -/

lemma generate_fold_ok (model : Model) (tokenizer : Tokenizer) :
    ∀ (states : List StateRow) (acc : List ReachRow),
      (∀ r ∈ states, ∃ xs, r.question_ids = PyObj.list xs) →
      states.foldlM (generateStep model tokenizer 1) acc =
        .ok (acc ++ states.flatMap (tableOf model tokenizer))
  | [], acc, _ => by
    rw [List.foldlM_nil, List.flatMap_nil, List.append_nil]
    rfl
  | r :: rest, acc, hall => by
    obtain ⟨xs, hxs⟩ := hall r (List.mem_cons_self r rest)
    rw [List.foldlM_cons]
    have hstep : generateStep model tokenizer 1 acc r =
        .ok (acc ++ reachTable xs model tokenizer) := by
      simp only [generateStep, hxs]
      rw [get_reachable_set_one, except_bind_ok]
      rfl
    rw [hstep, except_bind_ok,
      generate_fold_ok model tokenizer rest (acc ++ reachTable xs model tokenizer)
        (fun s hs => hall s (List.mem_cons_of_mem r hs)),
      List.flatMap_cons,
      show tableOf model tokenizer r = reachTable xs model tokenizer from by
        simp [tableOf, hxs],
      List.append_assoc]

lemma generate_fold_err (model : Model) (tokenizer : Tokenizer) :
    ∀ (states : List StateRow) (acc : List ReachRow),
      (∃ r ∈ states, ∀ xs, r.question_ids ≠ PyObj.list xs) →
      states.foldlM (generateStep model tokenizer 1) acc =
        .error (.typeAssertion
          "question_ids must be a list of token ids -- not a string.")
  | [], _, h => by
    rcases h with ⟨r, hr, _⟩
    simp at hr
  | r :: rest, acc, h => by
    rw [List.foldlM_cons]
    rcases hq : r.question_ids with xs | s
    · have hstep : generateStep model tokenizer 1 acc r =
          .ok (acc ++ reachTable xs model tokenizer) := by
        simp only [generateStep, hq]
        rw [get_reachable_set_one, except_bind_ok]
        rfl
      rw [hstep, except_bind_ok]
      rcases h with ⟨rb, hrb, hbad⟩
      rcases List.mem_cons.1 hrb with rfl | hrest
      · exact absurd hq (hbad xs)
      · exact generate_fold_err model tokenizer rest _ ⟨rb, hrest, hbad⟩
    · have hstep : generateStep model tokenizer 1 acc r =
          .error (.typeAssertion
            "question_ids must be a list of token ids -- not a string.") := by
        simp only [generateStep, hq]
      rw [hstep, except_bind_error]

/-- C8: `forward_generate` with the supported configuration returns the
row-wise concatenation of each question's reachable-set table in input order
(no cross-question deduplication), and fails with the TypeAssertion
condition whenever some row's `question_ids` cell is not a literal list of
integers. -/
theorem forward_generate_concat (states : List StateRow) (model : Model)
    (tokenizer : Tokenizer) :
    ((∀ r ∈ states, ∃ xs, r.question_ids = PyObj.list xs) →
      forward_generate states model tokenizer 1 =
        .ok (states.flatMap (tableOf model tokenizer))) ∧
    ((∃ r ∈ states, ∀ xs, r.question_ids ≠ PyObj.list xs) →
      forward_generate states model tokenizer 1 =
        .error (.typeAssertion
          "question_ids must be a list of token ids -- not a string.")) := by
  constructor
  · intro hall
    have h := generate_fold_ok model tokenizer states [] hall
    rw [List.nil_append] at h
    exact h
  · intro hbad
    exact generate_fold_err model tokenizer states [] hbad

theorem forward_generate_concat_witness :
    forward_generate [⟨"q", PyObj.list [2]⟩, ⟨"q", PyObj.list [2]⟩]
      demoModel demoTok 1 =
      .ok (reachTable [2] demoModel demoTok ++ reachTable [2] demoModel demoTok) := by
  have h := (forward_generate_concat [⟨"q", PyObj.list [2]⟩, ⟨"q", PyObj.list [2]⟩]
    demoModel demoTok).1 ?_
  · rw [h]
    rfl
  · intro r hr
    rcases List.mem_cons.1 hr with rfl | hr'
    · exact ⟨[2], rfl⟩
    · rcases List.mem_cons.1 hr' with rfl | hr''
      · exact ⟨[2], rfl⟩
      · simp at hr''

/-- C9: neither public entry point is runnable in its default configuration:
with the default `max_prompt_tokens = 10`, `get_reachable_set` fails with
the NotImplemented condition, and `forward_generate` fails on every
non-empty question collection. -/
theorem default_config_always_fails (x_0 : List Nat) (model : Model)
    (tokenizer : Tokenizer) (states : List StateRow) (hne : states ≠ []) :
    get_reachable_set x_0 model tokenizer =
      .error (.notImplemented
        "`get_reachable_set()` Not implemented with max_prompt_tokens != 1") ∧
    ∃ e, forward_generate states model tokenizer = .error e := by
  constructor
  · simp only [get_reachable_set]
    rw [if_neg (by omega : ¬ (10 : Nat) = 1)]
  · rcases states with _ | ⟨r, rest⟩
    · exact absurd rfl hne
    simp only [forward_generate]
    rw [List.foldlM_cons]
    rcases hq : r.question_ids with xs | s
    · have hstep : generateStep model tokenizer 10 [] r =
          .error (.notImplemented
            "`get_reachable_set()` Not implemented with max_prompt_tokens != 1") := by
        simp only [generateStep, hq]
        rw [show get_reachable_set xs model tokenizer 10 =
            .error (.notImplemented
              "`get_reachable_set()` Not implemented with max_prompt_tokens != 1") from by
          simp only [get_reachable_set]
          rw [if_neg (by omega : ¬ (10 : Nat) = 1)]]
        rw [except_bind_error]
      rw [hstep, except_bind_error]
      exact ⟨_, rfl⟩
    · have hstep : generateStep model tokenizer 10 [] r =
          .error (.typeAssertion
            "question_ids must be a list of token ids -- not a string.") := by
        simp only [generateStep, hq]
      rw [hstep, except_bind_error]
      exact ⟨_, rfl⟩

theorem default_config_always_fails_witness :
    get_reachable_set [2] demoModel demoTok =
      .error (.notImplemented
        "`get_reachable_set()` Not implemented with max_prompt_tokens != 1") :=
  (default_config_always_fails [2] demoModel demoTok
    [⟨"q", PyObj.list [2]⟩] (by decide)).1

end ForwardReach
